import Mathlib

/-!
Verification development for the reminder bot in src/main.py.

The embedding is shallow: each Python function that the claims mention is
translated into a Lean definition operating on explicit state.

Conventions used throughout:
* Chat identifiers are modelled as strings (the code converts the integer
  chat id to a string for every storage key, and interpolates the same
  digits into job ids).
* Instants are modelled as a day index plus a second-of-day; day 0 is a
  Monday, so the weekday of day d is d mod 7, matching Python's
  date.weekday() convention (Monday = 0).
* Python's per-process abs(hash(text)) is modelled as an arbitrary fixed
  function h from strings to naturals, passed as a parameter.
-/

/-- A persisted reminder record, as stored in reminders.json.  The source
field named repeat is called rep here because repeat is a Lean keyword.
The next_run_ts field appears in the storage-format comment of the source
("optional, for info") and is never read by any code path. -/
structure Reminder where
  id : String
  time_str : String
  text : String
  rep : String
  next_run_ts : Option Nat := none
deriving DecidableEq

/-- The persisted store: a mapping from chat-id string to the chat's list
of reminder records, modelled as an association list in insertion order
(Python dict semantics). -/
abbrev Store := List (String × List Reminder)

/-- Dictionary lookup with the empty list as default, modelling
reminders_all.get(str(chat_id), []). -/
def Store.get (s : Store) (k : String) : List Reminder :=
  match s.find? (fun p => p.1 == k) with
  | some p => p.2
  | none => []

/-- Dictionary assignment, modelling reminders_all[str(chat_id)] = lst:
replace the value under an existing key, otherwise append the new key. -/
def Store.set (s : Store) (k : String) (v : List Reminder) : Store :=
  if s.any (fun p => p.1 == k) then
    s.map (fun p => if p.1 == k then (k, v) else p)
  else
    s ++ [(k, v)]

/-- An hour/minute time of day, modelling datetime.time(hour, minute). -/
structure DTime where
  hour : Nat
  minute : Nat
deriving DecidableEq

/-- Splitting a character list at a separator, with Python str.split
semantics: the result has one piece per separator gap and is never
empty. -/
def splitChar (sep : Char) : List Char → List (List Char)
  | [] => [[]]
  | a :: rest =>
    let r := splitChar sep rest
    if a = sep then [] :: r
    else
      match r with
      | h :: tl => (a :: h) :: tl
      | [] => [[a]]

/-- The numeric value of a digit-character list. -/
def digitsVal (l : List Char) : Nat :=
  l.foldl (fun acc c => acc * 10 + (c.toNat - 48)) 0

/-- A validated %H or %M field: one or two digit characters. -/
def timeField (t : List Char) : Option Nat :=
  if 1 ≤ t.length ∧ t.length ≤ 2 ∧ t.all Char.isDigit then some (digitsVal t) else none

/-- Parsing of a time string in the HH:MM shape, modelling
datetime.strptime(txt, "%H:%M").time(): both fields are one or two
digits, the hour at most 23 and the minute at most 59. -/
def parseTime (s : String) : Option DTime :=
  match splitChar ':' s.data with
  | [hs, ms] =>
    match timeField hs, timeField ms with
    | some hh, some mm => if hh ≤ 23 ∧ mm ≤ 59 then some ⟨hh, mm⟩ else none
    | _, _ => none
  | _ => none

/-- Removal of leading and trailing whitespace, modelling Python's
str.strip(). -/
def pyStrip (s : String) : String :=
  ⟨((s.data.dropWhile Char.isWhitespace).reverse.dropWhile Char.isWhitespace).reverse⟩

/-- An absolute instant: a day index (day 0 is a Monday) and a
second-of-day, modelling datetime.utcnow(). -/
structure Instant where
  day : Nat
  sec : Nat
deriving DecidableEq

/-- The instant as a count of seconds from the epoch. -/
def Instant.abs (n : Instant) : Nat := n.day * 86400 + n.sec

/-- Seconds of a time of day past midnight. -/
def dtimeSec (t : DTime) : Nat := t.hour * 3600 + t.minute * 60

/-- Model of seconds_until_next: combine today's date with the time of
day; if that candidate is not strictly after now, advance by one day;
return the distance to now in seconds. -/
def seconds_until_next (now : Instant) (t : DTime) : Nat :=
  let target := now.day * 86400 + dtimeSec t
  if target ≤ now.abs then target + 86400 - now.abs else target - now.abs

/-- The absolute instant of the first timer fire chosen by
schedule_reminder: now plus seconds_until_next.  The repeat policy is a
parameter only to record that the source computes first_seconds before
branching on the policy and uses the same value for run_once (when=) and
run_repeating (first=); the value does not depend on it. -/
def scheduleFirstFireAbs (now : Instant) (t : DTime) (rep : String) : Nat :=
  now.abs + seconds_until_next now t

/-- Python's date.weekday() of the day containing an absolute second
count: Monday is 0, Saturday 5, Sunday 6. -/
def pyWeekday (absSec : Nat) : Nat := (absSec / 86400) % 7

/-- The day-of-week gate of the repeating wrapper _filter_and_send: on a
weekdays reminder it returns without sending when the weekday is 5 or 6;
on a weekends reminder it returns when the weekday is below 5; any other
policy proceeds unconditionally.  True means the send proceeds. -/
def filterProceeds (rtype : String) (wd : Nat) : Bool :=
  if rtype = "weekdays" ∧ 5 ≤ wd then false
  else if rtype = "weekends" ∧ wd < 5 then false
  else true

/-- Model of make_job_id: the base job id interpolated from the chat id,
the time string, the process string hash of the text, and the repeat
policy.  The parameter h models Python's per-process abs(hash(-)). -/
def make_job_id (h : String → Nat) (chat_id : String) (time_str : String)
    (text : String) (rep : String) : String :=
  chat_id ++ "_" ++ time_str ++ "_" ++ toString (h text) ++ "_" ++ rep

/-- The uniqueness loop of schedule_reminder, with explicit fuel: while
the candidate id is blocked (present among in-memory jobs or stored ids),
append an underscore and the running counter. -/
def freshIdAux (blocked : List String) : Nat → String → Nat → String
  | 0, jid, _ => jid
  | fuel + 1, jid, i =>
    if jid ∈ blocked then freshIdAux blocked fuel (jid ++ "_" ++ toString i) (i + 1)
    else jid

/-- The id finally chosen by the uniqueness loop.  Fuel one more than the
number of blocked ids always suffices because every retry strictly
lengthens the candidate. -/
def freshJobId (base : String) (blocked : List String) : String :=
  freshIdAux blocked (blocked.length + 1) base 1

/-- Model of schedule_reminder restricted to its state effect: parse the
time string (a failure raises in Python, modelled as none), pick a job id
not colliding with the in-memory JOBS keys nor with the ids stored for
this chat, and register the new job.  Returns the chosen id and the new
JOBS key list. -/
def schedule_reminder (h : String → Nat) (chat_id time_str text rep : String)
    (store : Store) (jobs : List String) : Option (String × List String) :=
  match parseTime time_str with
  | none => none
  | some _ =>
    let base := make_job_id h chat_id time_str text rep
    let jid := freshJobId base (jobs ++ (store.get chat_id).map Reminder.id)
    some (jid, jobs ++ [jid])

/-- An observable effect of a fire callback: sending a chat message or
rewriting the persisted store. -/
inductive Effect where
  | send : String → String → Effect
  | saveStore : Store → Effect
deriving DecidableEq

/-- The data dict attached to a job at scheduling time. -/
structure JobData where
  chat_id : String
  text : String
  id : String
  rep : String
deriving DecidableEq

/-- Model of job_send: reload the store, check that a record with the
job's id still exists for the chat, and only then send the reminder text.
The function never writes the store, which the effect list makes
explicit. -/
def job_send (store : Store) (jd : JobData) : List Effect :=
  let user_list := store.get jd.chat_id
  let still_exists := user_list.any (fun r => r.id == jd.id)
  if still_exists then [Effect.send jd.chat_id ("⏰ Нагадування: " ++ jd.text)]
  else []

/-- The persisted store after a list of effects has been performed: only
saveStore effects change it. -/
def storeAfterEffects (s : Store) : List Effect → Store
  | [] => s
  | Effect.saveStore s' :: rest => storeAfterEffects s' rest
  | Effect.send _ _ :: rest => storeAfterEffects s rest

/-- Model of cancel_job's effect on the JOBS mapping: remove the entry
when present (schedule_removal plus pop); when absent only a log line is
emitted and nothing changes. -/
def cancel_job (job_id : String) (jobs : List String) : List String :=
  if job_id ∈ jobs then jobs.erase job_id else jobs

/-- The combined mutable state the handlers touch: the persisted store
and the in-memory JOBS key list (one key per armed timer). -/
structure BotState where
  store : Store
  jobs : List String
deriving DecidableEq

/-- Model of the delete_IDX branch of button_handler: an index outside
the chat's list answers with the not-found message and changes nothing;
otherwise cancel_job is called on the stored id, the record is removed
from the list, and the store is saved, all before the reply. -/
def deleteBranch (idx : Nat) (chat : String) (st : BotState) : String × BotState :=
  let user_rem := st.store.get chat
  if h : idx < user_rem.length then
    let jid := (user_rem.get ⟨idx, h⟩).id
    ("✅ Видалено.", ⟨st.store.set chat (user_rem.eraseIdx idx), cancel_job jid st.jobs⟩)
  else
    ("Нічого не знайдено.", st)

/-- Model of the creation path of repeat_handler: schedule the job, then
append the record with the returned id to the chat's stored list and
save.  Returns the new id together with the updated state. -/
def createReminder (h : String → Nat) (chat time_str text rep : String)
    (st : BotState) : Option (String × BotState) :=
  match schedule_reminder h chat time_str text rep st.store st.jobs with
  | none => none
  | some (jid, jobs') =>
    let recsNew := st.store.get chat ++ [⟨jid, time_str, text, rep, none⟩]
    some (jid, ⟨st.store.set chat recsNew, jobs'⟩)

/-- One step of the restore loop body for a single stored record: skip
records whose id is already a JOBS key, otherwise call schedule_reminder
(an exception there is caught and the record skipped). -/
def armRecord (h : String → Nat) (chat : String) (store : Store)
    (jobs : List String) (r : Reminder) : List String :=
  if r.id ∈ jobs then jobs
  else
    match schedule_reminder h chat r.time_str r.text r.rep store jobs with
    | some (_, jobs') => jobs'
    | none => jobs

/-- The restore loop over one chat's stored records. -/
def restoreChat (h : String → Nat) (chat : String) (store : Store)
    (recs : List Reminder) (jobs : List String) : List String :=
  recs.foldl (armRecord h chat store) jobs

/-- Model of restore_reminders: iterate every chat of the loaded store,
arming each stored record.  restore never saves, so every blocked-id
check inside sees the same store. -/
def restore_reminders (h : String → Nat) (store : Store) : List String :=
  store.foldl (fun jobs p => restoreChat h p.1 store p.2 jobs) []

/-- The durable storage path. -/
def REMINDERS_FILE : String := "reminders.json"

/-- A file-system operation performed by the persistence layer: open a
path truncating it, write the serialized store to a path, or atomically
rename one path onto another. -/
inductive FsOp where
  | openTrunc : String → FsOp
  | writeData : String → Store → FsOp
  | rename : String → String → FsOp
deriving DecidableEq

/-- Model of save_reminders as its trace of file-system operations: the
durable file itself is opened with mode w (truncating it) and the data is
written into it directly. -/
def save_reminders (d : Store) : List FsOp :=
  [FsOp.openTrunc REMINDERS_FILE, FsOp.writeData REMINDERS_FILE d]

/-- A file-system state: a path maps to nothing when absent, to some
none when it has been truncated but holds no complete serialized store
yet, and to some (some d) when it holds the complete store d. -/
def FileSys := String → Option (Option Store)

/-- The effect of one file-system operation on the file-system state. -/
def applyFsOp (fs : FileSys) : FsOp → FileSys
  | FsOp.openTrunc p => fun q => if q = p then some none else fs q
  | FsOp.writeData p d => fun q => if q = p then some (some d) else fs q
  | FsOp.rename s t => fun q => if q = t then fs s else if q = s then none else fs q

/-- The file-system state after a whole trace. -/
def applyFsTrace (fs : FileSys) (tr : List FsOp) : FileSys :=
  tr.foldl applyFsOp fs

/-- Modelled from the spec: the write-then-replace discipline the spec
prescribes for saving — all writing happens at a temporary path distinct
from the durable file, and a final atomic rename swaps it into place. -/
def specWriteThenReplace (tr : List FsOp) : Prop :=
  ∃ tmp d, tmp ≠ REMINDERS_FILE ∧
    tr = [FsOp.openTrunc tmp, FsOp.writeData tmp d, FsOp.rename tmp REMINDERS_FILE]

/-- A record slot of the raw storage file: either a record that parses or
a corrupt entry. -/
abbrev RawRec := Except Unit Reminder

/-- The raw storage file contents before deserialization. -/
abbrev RawStore := List (String × List RawRec)

/-- Whether every record slot of the raw file parses; json.load succeeds
exactly in this case and raises otherwise. -/
def rawStoreOk (c : RawStore) : Bool :=
  c.all (fun p => p.2.all (fun r => match r with | Except.ok _ => true | Except.error _ => false))

/-- The records of a raw file that do parse, keeping their chats. -/
def rawStoreGood (c : RawStore) : Store :=
  c.map (fun p => (p.1, p.2.filterMap (fun r => r.toOption)))

/-- Model of load_reminders: a missing file yields the empty store; an
existing file is deserialized all-or-nothing, and any exception (any
corrupt record slot) is caught, logged, and the empty store returned. -/
def load_reminders (disk : Option RawStore) : Store :=
  match disk with
  | none => []
  | some c => if rawStoreOk c then rawStoreGood c else []

/-- Modelled from the spec: the loading behaviour the spec prescribes —
a corrupt record is skipped while the remaining records are still
loaded. -/
def specLoad (disk : Option RawStore) : Store :=
  match disk with
  | none => []
  | some c => rawStoreGood c

/-- The per-owner conversation state kept in context.user_data: the step
marker plus the collected draft fields. -/
structure ConvState where
  step : Option String := none
  chosen_time : Option String := none
  chosen_task : Option String := none
deriving DecidableEq

/-- Two-digit zero padding of a field for strftime("%H:%M"). -/
def pad2 (n : Nat) : String :=
  if n < 10 then ("0" ++ toString n) else toString n

/-- Rendering of a parsed time back to the normalized HH:MM string. -/
def formatTime (t : DTime) : String :=
  pad2 t.hour ++ ":" ++ pad2 t.minute

/-- Model of text_handler on the conversation state: in the
waiting_for_time step an unparseable stripped input re-prompts without a
state change, a valid one stores the normalized time and advances; in the
waiting_for_task step the stripped text is stored unconditionally — with
no emptiness check — and the repeat keyboard is shown with the step
cleared; any other step falls through to the main menu. -/
def text_handler (cs : ConvState) (input : String) : ConvState × String :=
  if cs.step = some ("waiting_for_time") then
    match parseTime (pyStrip input) with
    | none => (cs, "⚠ Невірний формат. Використай HH:MM")
    | some t =>
      ({ cs with chosen_time := some (formatTime t), step := some ("waiting_for_task") },
       "✏️ Що потрібно нагадати?")
  else if cs.step = some ("waiting_for_task") then
    ({ cs with chosen_task := some (pyStrip input), step := none },
     "🔄 Як повторювати нагадування?")
  else
    (cs, "📌 Головне меню:")

/-! ### Helper lemmas about the uniqueness loop -/

lemma length_filter_le_of_imp (l : List String) (p q : String → Bool)
    (himp : ∀ b, q b = true → p b = true) :
    (l.filter q).length ≤ (l.filter p).length := by
  induction l with
  | nil => simp
  | cons x xs ih =>
    by_cases hq : q x = true
    · have hp := himp x hq
      simp only [List.filter_cons, hq, hp, if_true, List.length_cons]
      omega
    · by_cases hp : p x = true <;>
        simp only [List.filter_cons, hq, hp, if_true, if_false, List.length_cons,
          Bool.false_eq_true] <;> omega

lemma length_filter_lt_of_mem (l : List String) (p q : String → Bool) (a : String)
    (himp : ∀ b, q b = true → p b = true) (ha : a ∈ l) (hpa : p a = true)
    (hqa : q a = false) :
    (l.filter q).length < (l.filter p).length := by
  induction l with
  | nil => cases ha
  | cons x xs ih =>
    rcases List.mem_cons.mp ha with rfl | hmem
    · simp only [List.filter_cons, hqa, hpa, if_true, Bool.false_eq_true, if_false,
        List.length_cons]
      have := length_filter_le_of_imp xs p q himp
      omega
    · by_cases hq : q x = true
      · have hp := himp x hq
        simp only [List.filter_cons, hq, hp, if_true, List.length_cons]
        have := ih hmem
        omega
      · by_cases hp : p x = true <;>
          simp only [List.filter_cons, hq, hp, if_true, if_false, Bool.false_eq_true,
            List.length_cons] <;>
          have := ih hmem <;> omega

lemma freshIdAux_not_mem (blocked : List String) :
    ∀ (fuel : Nat) (jid : String) (i : Nat),
      (blocked.filter (fun b => decide (jid.length ≤ b.length))).length < fuel →
      freshIdAux blocked fuel jid i ∉ blocked := by
  intro fuel
  induction fuel with
  | zero => intro jid i hlt; omega
  | succ fuel ih =>
    intro jid i hlt
    unfold freshIdAux
    by_cases hmem : jid ∈ blocked
    · rw [if_pos hmem]
      apply ih
      have hlen : jid.length < (jid ++ "_" ++ toString i).length := by
        rw [String.length_append, String.length_append]
        have h1 : ("_" : String).length = 1 := rfl
        omega
      have hstep := length_filter_lt_of_mem blocked
        (fun b => decide (jid.length ≤ b.length))
        (fun b => decide ((jid ++ "_" ++ toString i).length ≤ b.length))
        jid
        (fun b hb => by
          simp only [decide_eq_true_eq] at hb ⊢
          omega)
        hmem
        (by simp)
        (by simp only [decide_eq_false_iff_not]; omega)
      omega
    · rw [if_neg hmem]
      exact hmem

lemma freshJobId_not_mem (base : String) (blocked : List String) :
    freshJobId base blocked ∉ blocked := by
  apply freshIdAux_not_mem
  have := List.length_filter_le (fun b => decide (base.length ≤ b.length)) blocked
  omega

/-! ### Helper lemmas about the restore loop -/

lemma armRecord_cases (h : String → Nat) (chat : String) (store : Store)
    (jobs : List String) (r : Reminder) :
    armRecord h chat store jobs r = jobs ∨
      ∃ jid, jid ∉ jobs ++ (store.get chat).map Reminder.id ∧
        armRecord h chat store jobs r = jobs ++ [jid] := by
  unfold armRecord
  by_cases hmem : r.id ∈ jobs
  · left; rw [if_pos hmem]
  · rw [if_neg hmem]
    cases hpt : parseTime r.time_str
    · left; simp [schedule_reminder, hpt]
    · right
      exact ⟨freshJobId (make_job_id h chat r.time_str r.text r.rep)
          (jobs ++ (store.get chat).map Reminder.id),
        freshJobId_not_mem _ _, by simp [schedule_reminder, hpt]⟩

lemma armRecord_arms (h : String → Nat) (chat : String) (store : Store)
    (jobs : List String) (r : Reminder) (hmem : r.id ∉ jobs)
    (hp : (parseTime r.time_str).isSome = true) :
    ∃ jid, jid ∉ jobs ++ (store.get chat).map Reminder.id ∧
      armRecord h chat store jobs r = jobs ++ [jid] := by
  unfold armRecord
  rw [if_neg hmem]
  cases hpt : parseTime r.time_str
  · rw [hpt] at hp; simp at hp
  · exact ⟨freshJobId (make_job_id h chat r.time_str r.text r.rep)
      (jobs ++ (store.get chat).map Reminder.id),
      freshJobId_not_mem _ _, by simp [schedule_reminder, hpt]⟩

lemma mem_restoreChat (h : String → Nat) (chat : String) (store : Store) :
    ∀ (recs : List Reminder) (jobs : List String) (j : String),
      j ∈ restoreChat h chat store recs jobs →
      j ∈ jobs ∨ j ∉ (store.get chat).map Reminder.id := by
  intro recs
  induction recs with
  | nil => intro jobs j hj; left; exact hj
  | cons r rs ih =>
    intro jobs j hj
    rw [restoreChat, List.foldl_cons] at hj
    rcases armRecord_cases h chat store jobs r with heq | ⟨jid, hnotin, heq⟩
    · rw [heq] at hj
      exact ih jobs j hj
    · rw [heq] at hj
      rcases ih (jobs ++ [jid]) j hj with hin | hout
      · rcases List.mem_append.mp hin with h1 | h2
        · left; exact h1
        · right
          have hjjid : j = jid := by simpa using h2
          subst hjjid
          intro hc
          exact hnotin (List.mem_append.mpr (Or.inr hc))
      · right; exact hout

lemma restoreChat_length (h : String → Nat) (chat : String) (store : Store) :
    ∀ (recs : List Reminder) (jobs : List String),
      (∀ r ∈ recs, (parseTime r.time_str).isSome = true ∧
        r.id ∈ (store.get chat).map Reminder.id ∧ r.id ∉ jobs) →
      (restoreChat h chat store recs jobs).length = jobs.length + recs.length := by
  intro recs
  induction recs with
  | nil => intro jobs _; simp [restoreChat]
  | cons r rs ih =>
    intro jobs hrecs
    obtain ⟨hp, hidC, hidnj⟩ := hrecs r (List.mem_cons_self r rs)
    obtain ⟨jid, hjid, heq⟩ := armRecord_arms h chat store jobs r hidnj hp
    rw [restoreChat, List.foldl_cons, heq]
    have hrest : (restoreChat h chat store rs (jobs ++ [jid])).length
        = (jobs ++ [jid]).length + rs.length := by
      apply ih
      intro r' hr'
      obtain ⟨hp', hC', hnj'⟩ := hrecs r' (List.mem_cons_of_mem _ hr')
      refine ⟨hp', hC', ?_⟩
      intro hc
      rcases List.mem_append.mp hc with h1 | h2
      · exact hnj' h1
      · have hid : r'.id = jid := by simpa using h2
        apply hjid
        rw [← hid]
        exact List.mem_append.mpr (Or.inr hC')
    have hfold : List.foldl (armRecord h chat store) (jobs ++ [jid]) rs
        = restoreChat h chat store rs (jobs ++ [jid]) := rfl
    rw [hfold, hrest]
    simp only [List.length_append, List.length_cons, List.length_nil]
    omega

/-! ### Helper lemmas about the store dictionary -/

lemma store_get_single (chat : String) (recs : List Reminder) :
    Store.get [(chat, recs)] chat = recs := by
  simp [Store.get, List.find?]

lemma restore_single (h : String → Nat) (chat : String) (recs : List Reminder) :
    restore_reminders h [(chat, recs)] = restoreChat h chat [(chat, recs)] recs [] := rfl

lemma find?_replace (k : String) (v : List Reminder) :
    ∀ (s : Store), s.any (fun p => p.1 == k) = true →
      (s.map (fun p => if p.1 == k then (k, v) else p)).find? (fun p => p.1 == k)
        = some (k, v) := by
  intro s hs
  induction s with
  | nil => simp at hs
  | cons a t ih =>
    by_cases hk : (a.1 == k) = true
    · simp [List.find?, hk]
    · have ht : t.any (fun p => p.1 == k) = true := by
        simp only [List.any_cons, hk, Bool.false_or] at hs
        exact hs
      simp only [List.map_cons, if_neg hk]
      rw [List.find?_cons_of_neg _ (by simpa using hk)]
      exact ih ht

lemma find?_append_new (k : String) (v : List Reminder) :
    ∀ (s : Store), s.any (fun p => p.1 == k) = false →
      (s ++ [(k, v)]).find? (fun p => p.1 == k) = some (k, v) := by
  intro s hs
  induction s with
  | nil => simp [List.find?]
  | cons a t ih =>
    simp only [List.any_cons, Bool.or_eq_false_iff] at hs
    obtain ⟨h1, h2⟩ := hs
    rw [List.cons_append, List.find?_cons_of_neg _ (by simpa using h1)]
    exact ih h2

lemma store_get_set_self (s : Store) (k : String) (v : List Reminder) :
    (s.set k v).get k = v := by
  unfold Store.set Store.get
  by_cases hany : s.any (fun p => p.1 == k) = true
  · rw [if_pos hany, find?_replace k v s hany]
  · rw [if_neg hany, find?_append_new k v s (Bool.eq_false_iff.mpr hany)]

lemma not_mem_map_eraseIdx :
    ∀ (l : List Reminder) (i : Nat) (h : i < l.length),
      (l.map Reminder.id).Nodup →
      (l.get ⟨i, h⟩).id ∉ (l.eraseIdx i).map Reminder.id := by
  intro l
  induction l with
  | nil => intro i h; simp at h
  | cons x xs ih =>
    intro i h hnd
    rw [List.map_cons, List.nodup_cons] at hnd
    obtain ⟨hx, hxs⟩ := hnd
    cases i with
    | zero =>
      simpa using hx
    | succ n =>
      have hn : n < xs.length := by simpa using h
      simp only [List.eraseIdx, List.map_cons, List.mem_cons]
      rintro (heq | hmem)
      · apply hx
        have hgm : (xs.get ⟨n, hn⟩).id ∈ xs.map Reminder.id :=
          List.mem_map.mpr ⟨xs.get ⟨n, hn⟩, List.get_mem xs n hn, rfl⟩
        have hgg : ((x :: xs).get ⟨n + 1, h⟩) = xs.get ⟨n, hn⟩ := rfl
        rw [← hgg, heq] at hgm
        exact hgm
      · exact ih n hn hxs hmem

/-! ### C1: first fire instant at creation -/

/-- C1 counterexample: creating a weekends reminder on Monday 10:00 (day
0 is a Monday; second-of-day 36000) with time of day 09:00 puts the first
timer fire on Tuesday 09:00 — absolute second 118800, weekday 1 — which
fails the weekend filter and is not the next Saturday 09:00 (absolute
second 464400): the claim's weekday property fails at this input. -/
theorem weekends_first_fire_monday_is_tuesday :
    scheduleFirstFireAbs ⟨0, 36000⟩ ⟨9, 0⟩ ("weekends") = 118800 ∧
    pyWeekday 118800 = 1 ∧
    filterProceeds ("weekends") (pyWeekday 118800) = false ∧
    scheduleFirstFireAbs ⟨0, 36000⟩ ⟨9, 0⟩ ("weekends") ≠ 5 * 86400 + 32400 := by
  decide

/-- C1 amended: for every reference instant, time of day and policy, the
first timer instant computed at creation is strictly after the reference
and at most one day later, landing exactly on the requested time of day;
the policy is not consulted at all when computing it.  The weekday
constraint of the weekdays and weekends policies is enforced only at fire
time, where the repeating wrapper proceeds exactly on weekdays 0-4,
respectively 5-6. -/
theorem first_fire_is_next_occurrence_of_time (now : Instant) (t : DTime)
    (rep : String) (hsec : now.sec < 86400) (ht : dtimeSec t < 86400) :
    now.abs < scheduleFirstFireAbs now t rep ∧
    scheduleFirstFireAbs now t rep ≤ now.abs + 86400 ∧
    scheduleFirstFireAbs now t rep % 86400 = dtimeSec t ∧
    (∀ wd, filterProceeds ("weekends") wd = decide (5 ≤ wd)) ∧
    (∀ wd, filterProceeds ("weekdays") wd = decide (wd < 5)) := by
  refine ⟨?_, ?_, ?_, ?_, ?_⟩
  · unfold scheduleFirstFireAbs seconds_until_next Instant.abs
    dsimp only
    split <;> omega
  · unfold scheduleFirstFireAbs seconds_until_next Instant.abs
    dsimp only
    split <;> omega
  · unfold scheduleFirstFireAbs seconds_until_next Instant.abs
    dsimp only
    split <;> omega
  · intro wd
    rcases Nat.lt_or_ge wd 5 with h5 | h5 <;>
      simp [filterProceeds, h5, Nat.not_le.mpr, Nat.not_lt.mpr]
  · intro wd
    rcases Nat.lt_or_ge wd 5 with h5 | h5 <;>
      simp [filterProceeds, h5, Nat.not_le.mpr, Nat.not_lt.mpr]

/-- Witness for the amended C1 theorem at a concrete input. -/
theorem first_fire_is_next_occurrence_witness :
    (⟨3, 600⟩ : Instant).sec < 86400 ∧ dtimeSec ⟨7, 15⟩ < 86400 ∧
    ((⟨3, 600⟩ : Instant).abs < scheduleFirstFireAbs ⟨3, 600⟩ ⟨7, 15⟩ ("daily") ∧
     scheduleFirstFireAbs ⟨3, 600⟩ ⟨7, 15⟩ ("daily") ≤ (⟨3, 600⟩ : Instant).abs + 86400 ∧
     scheduleFirstFireAbs ⟨3, 600⟩ ⟨7, 15⟩ ("daily") % 86400 = dtimeSec ⟨7, 15⟩ ∧
     (∀ wd, filterProceeds ("weekends") wd = decide (5 ≤ wd)) ∧
     (∀ wd, filterProceeds ("weekdays") wd = decide (wd < 5))) :=
  ⟨by decide, by decide,
    first_fire_is_next_occurrence_of_time ⟨3, 600⟩ ⟨7, 15⟩ ("daily") (by decide) (by decide)⟩

/-! ### C2: restore of past once reminders -/

/-- C2 counterexample: restore on a store holding a single once reminder
whose stored fire timestamp 100 lies far in the past still arms a timer
for it — the armed job list comes out nonempty — instead of dropping it:
nothing in restore or schedule looks at a stored fire time or at the once
policy. -/
theorem restore_rearms_past_once :
    restore_reminders (fun _ => 0) [(("1"), [⟨("a"), ("09:00"), ("x"), ("once"), some 100⟩])]
      = [("1_09:00_0_once")] ∧
    restore_reminders (fun _ => 0) [(("1"), [⟨("a"), ("09:00"), ("x"), ("once"), some 100⟩])]
      ≠ [] := by
  decide

/-- C2 amended: restore re-arms a timer for every stored record of a chat
whose time string parses, once reminders with long-past stored fire
times included; no record is dropped, each being re-armed at the next
occurrence of its time of day. -/
theorem restore_rearms_every_record (h : String → Nat) (chat : String)
    (recs : List Reminder)
    (hval : ∀ r ∈ recs, (parseTime r.time_str).isSome = true) :
    (restore_reminders h [(chat, recs)]).length = recs.length := by
  rw [restore_single]
  have hlen := restoreChat_length h chat [(chat, recs)] recs [] ?_
  · simpa using hlen
  · intro r hr
    refine ⟨hval r hr, ?_, by simp⟩
    rw [store_get_single]
    exact List.mem_map.mpr ⟨r, hr, rfl⟩

/-- Witness for the amended C2 theorem: the past once reminder is armed. -/
theorem restore_rearms_every_record_witness :
    (∀ r ∈ [(⟨("a"), ("09:00"), ("x"), ("once"), some 100⟩ : Reminder)],
      (parseTime r.time_str).isSome = true) ∧
    (restore_reminders (fun _ => 0)
      [(("7"), [(⟨("a"), ("09:00"), ("x"), ("once"), some 100⟩ : Reminder)])]).length
      = [(⟨("a"), ("09:00"), ("x"), ("once"), some 100⟩ : Reminder)].length :=
  ⟨by decide, restore_rearms_every_record (fun _ => 0) ("7")
    [⟨("a"), ("09:00"), ("x"), ("once"), some 100⟩] (by decide)⟩

/-! ### C3: restored reminders never deliver -/

/-- C3: every timer armed by restore carries an id different from every
record id persisted for that chat — the uniqueness loop treats the
record's own stored id as a collision — so when the timer fires, the
store-existence check of the fire callback finds no match and the
callback returns without sending: a reminder restored from storage never
delivers its notification while the store is not rewritten. -/
theorem restored_job_never_sends (h : String → Nat) (chat : String)
    (recs : List Reminder) (j : String)
    (hj : j ∈ restore_reminders h [(chat, recs)]) :
    (∀ r ∈ recs, j ≠ r.id) ∧
    ∀ text rep, job_send [(chat, recs)] ⟨chat, text, j, rep⟩ = [] := by
  rw [restore_single] at hj
  rcases mem_restoreChat h chat [(chat, recs)] recs [] j hj with hin | hout
  · cases hin
  · rw [store_get_single] at hout
    constructor
    · intro r hr heq
      exact hout (List.mem_map.mpr ⟨r, hr, heq.symm⟩)
    · intro text rep
      have hany : (recs.any fun r => r.id == j) = false := by
        apply Bool.eq_false_iff.mpr
        intro hc
        obtain ⟨r, hr, hrj⟩ := List.any_eq_true.mp hc
        exact hout (List.mem_map.mpr ⟨r, hr, by simpa using hrj⟩)
      simp [job_send, store_get_single, hany]

/-- Witness for the C3 theorem: the concrete restored job id is armed by
restore, and firing it sends nothing. -/
theorem restored_job_never_sends_witness :
    (("1_09:00_0_once")
        ∈ restore_reminders (fun _ => 0) [(("1"), [⟨("a"), ("09:00"), ("x"), ("once"), none⟩])]) ∧
    job_send [(("1"), [(⟨("a"), ("09:00"), ("x"), ("once"), none⟩ : Reminder)])]
        ⟨("1"), ("x"), ("1_09:00_0_once"), ("once")⟩ = [] :=
  ⟨by decide,
    (restored_job_never_sends (fun _ => 0) ("1") [⟨("a"), ("09:00"), ("x"), ("once"), none⟩]
      ("1_09:00_0_once") (by decide)).2 ("x") ("once")⟩

/-! ### C4: persistence is not write-then-replace -/

/-- C4 counterexample: the save trace (here for the empty store) is not
of the write-to-temporary-then-rename shape the claim describes — it has
no rename at all and opens the durable file itself. -/
theorem save_not_write_then_replace : ¬ specWriteThenReplace (save_reminders []) := by
  rintro ⟨tmp, d, hne, heq⟩
  simp [save_reminders, specWriteThenReplace] at heq

/-- C4 amended: save_reminders opens the durable file itself in
truncating write mode and writes the data into it directly, with no
temporary file and no rename; consequently at the crash point right after
the truncating open the durable file is already truncated while the new
content is not yet written, and only a complete run leaves the full
store. -/
theorem save_truncates_durable_file_directly (d : Store) (fs : FileSys) :
    save_reminders d = [FsOp.openTrunc REMINDERS_FILE, FsOp.writeData REMINDERS_FILE d] ∧
    applyFsTrace fs (List.take 1 (save_reminders d)) REMINDERS_FILE = some none ∧
    applyFsTrace fs (save_reminders d) REMINDERS_FILE = some (some d) := by
  refine ⟨rfl, ?_, ?_⟩ <;> simp [save_reminders, applyFsTrace, applyFsOp]

/-! ### C5: loading on a corrupt record -/

/-- C5 counterexample: the raw file has one corrupt slot between two good
records; load returns the empty store, losing the good records, while the
behaviour the claim describes would keep both. -/
theorem corrupt_record_empties_load :
    load_reminders (some [(("1"),
        [Except.ok ⟨("a"), ("09:00"), ("x"), ("once"), none⟩,
         Except.error (),
         Except.ok ⟨("b"), ("10:00"), ("y"), ("daily"), none⟩])]) = [] ∧
    specLoad (some [(("1"),
        [Except.ok ⟨("a"), ("09:00"), ("x"), ("once"), none⟩,
         Except.error (),
         Except.ok ⟨("b"), ("10:00"), ("y"), ("daily"), none⟩])])
      = [(("1"), [⟨("a"), ("09:00"), ("x"), ("once"), none⟩,
                  ⟨("b"), ("10:00"), ("y"), ("daily"), none⟩])] := by
  decide

/-- C5 amended: loading never raises and a missing file yields the empty
store, but deserialization is all-or-nothing: any raw file containing at
least one corrupt record slot loads as the empty store — the remaining
good records are lost, not kept. -/
theorem load_empty_on_any_corrupt_record (c : RawStore) (chat : String)
    (slots : List RawRec) (hc : (chat, slots) ∈ c) (hbad : Except.error () ∈ slots) :
    load_reminders none = [] ∧ load_reminders (some c) = [] := by
  refine ⟨rfl, ?_⟩
  have hok : rawStoreOk c = false := by
    apply Bool.eq_false_iff.mpr
    intro hc2
    have h1 := List.all_eq_true.mp hc2 (chat, slots) hc
    have h2 := List.all_eq_true.mp h1 (Except.error ()) hbad
    simp at h2
  simp [load_reminders, hok]

/-- Witness for the amended C5 theorem at a one-slot corrupt file. -/
theorem load_empty_on_corrupt_witness :
    ((("1"), [(Except.error () : RawRec)]) ∈ [(("1"), [(Except.error () : RawRec)])]) ∧
    ((Except.error () : RawRec) ∈ [(Except.error () : RawRec)]) ∧
    (load_reminders none = [] ∧
     load_reminders (some [(("1"), [(Except.error () : RawRec)])]) = []) :=
  ⟨by simp, by simp,
    load_empty_on_any_corrupt_record [(("1"), [Except.error ()])] ("1")
      [Except.error ()] (by simp) (by simp)⟩

/-! ### C6: fire on a cancelled id is silent -/

/-- C6: when the fire callback runs for an id with no matching record in
the persisted store for its chat — the reminder was already cancelled or
deleted — it performs no effect at all: nothing is sent and the persisted
store is untouched, which is what makes a cancel racing a fire safe. -/
theorem fire_on_deleted_id_silent (store : Store) (jd : JobData)
    (habs : ∀ r ∈ store.get jd.chat_id, r.id ≠ jd.id) :
    job_send store jd = [] ∧ storeAfterEffects store (job_send store jd) = store := by
  have hany : ((store.get jd.chat_id).any fun r => r.id == jd.id) = false := by
    apply Bool.eq_false_iff.mpr
    intro hc
    obtain ⟨r, hr, hrj⟩ := List.any_eq_true.mp hc
    exact habs r hr (by simpa using hrj)
  refine ⟨?_, ?_⟩ <;> simp [job_send, hany, storeAfterEffects]

/-- Witness for the C6 theorem: firing a deleted id over a store that no
longer holds it does nothing. -/
theorem fire_on_deleted_id_silent_witness :
    (∀ r ∈ Store.get [(("1"), [])] ("1"), r.id ≠ ("a")) ∧
    (job_send [(("1"), [])] ⟨("1"), ("x"), ("a"), ("once")⟩ = [] ∧
     storeAfterEffects [(("1"), [])]
       (job_send [(("1"), [])] ⟨("1"), ("x"), ("a"), ("once")⟩) = [(("1"), [])]) :=
  ⟨by decide, fire_on_deleted_id_silent [(("1"), [])] ⟨("1"), ("x"), ("a"), ("once")⟩ (by decide)⟩

/-! ### C7: cancel semantics -/

/-- C7 counterexample: in the state produced by a restart — restore
re-armed the stored reminder under the fresh suffix-free recomputed id
while the store still holds the original id — cancelling the reminder
reports success and removes the record, yet the armed timer survives the
cancel: the JOBS set still holds the re-armed timer id afterwards, so the
armed timer is not cancelled before the operation returns. -/
theorem cancel_leaves_restored_timer_armed :
    restore_reminders (fun _ => 0) [(("1"), [⟨("a"), ("09:00"), ("x"), ("once"), none⟩])]
      = [("1_09:00_0_once")] ∧
    deleteBranch 0 ("1")
        ⟨[(("1"), [⟨("a"), ("09:00"), ("x"), ("once"), none⟩])], [("1_09:00_0_once")]⟩
      = (("✅ Видалено."), ⟨[(("1"), [])], [("1_09:00_0_once")]⟩) := by
  decide

/-- C7 amended: cancel on an index with no pending reminder for the chat
answers with the user-visible nothing-found message and changes nothing;
on a valid index the success reply is produced only after the record has
been removed from the chat's stored list and the store saved, so a
subsequent list shows exactly the remaining records — under distinct
stored ids the cancelled id no longer occurs at all — while the timer is
cancelled only as far as an in-memory JOBS entry exists under the stored
id (a timer armed under a different id, as after a restart, survives). -/
theorem cancel_removes_record_best_effort_timer (st : BotState) (idx : Nat)
    (chat : String) :
    ((st.store.get chat).length ≤ idx →
      deleteBranch idx chat st = (("Нічого не знайдено."), st)) ∧
    (∀ hlt : idx < (st.store.get chat).length,
      deleteBranch idx chat st
        = (("✅ Видалено."),
           ⟨st.store.set chat ((st.store.get chat).eraseIdx idx),
            cancel_job ((st.store.get chat).get ⟨idx, hlt⟩).id st.jobs⟩) ∧
      (deleteBranch idx chat st).2.store.get chat = (st.store.get chat).eraseIdx idx ∧
      (((st.store.get chat).map Reminder.id).Nodup →
        ((st.store.get chat).get ⟨idx, hlt⟩).id
          ∉ ((deleteBranch idx chat st).2.store.get chat).map Reminder.id)) := by
  constructor
  · intro hge
    unfold deleteBranch
    rw [dif_neg (by omega)]
  · intro hlt
    have heq : deleteBranch idx chat st
        = (("✅ Видалено."),
           ⟨st.store.set chat ((st.store.get chat).eraseIdx idx),
            cancel_job ((st.store.get chat).get ⟨idx, hlt⟩).id st.jobs⟩) := by
      unfold deleteBranch
      rw [dif_pos hlt]
    refine ⟨heq, ?_, ?_⟩
    · rw [heq]
      exact store_get_set_self st.store chat ((st.store.get chat).eraseIdx idx)
    · intro hnd
      rw [heq]
      have hget : (BotState.mk (st.store.set chat ((st.store.get chat).eraseIdx idx))
          (cancel_job ((st.store.get chat).get ⟨idx, hlt⟩).id st.jobs)).store.get chat
          = (st.store.get chat).eraseIdx idx :=
        store_get_set_self st.store chat ((st.store.get chat).eraseIdx idx)
      rw [hget]
      exact not_mem_map_eraseIdx (st.store.get chat) idx hlt hnd

/-- Witness for the amended C7 theorem, exercising both the not-found
branch and the valid-index branch. -/
theorem cancel_removes_record_witness :
    ((Store.get [] ("1")).length ≤ 0 ∧
      deleteBranch 0 ("1") ⟨[], [("k")]⟩ = (("Нічого не знайдено."), ⟨[], [("k")]⟩)) ∧
    (deleteBranch 0 ("1") ⟨[(("1"), [⟨("a"), ("09:00"), ("x"), ("once"), none⟩])], [("a")]⟩
      = (("✅ Видалено."), ⟨[(("1"), [])], []⟩)) := by
  constructor
  · exact ⟨by decide, (cancel_removes_record_best_effort_timer ⟨[], [("k")]⟩ 0 ("1")).1 (by decide)⟩
  · have hpart := ((cancel_removes_record_best_effort_timer
      ⟨[(("1"), [⟨("a"), ("09:00"), ("x"), ("once"), none⟩])], [("a")]⟩ 0 ("1")).2 (by decide)).1
    rw [hpart]
    decide

/-! ### C8: after a once reminder fires -/

/-- C8 counterexample: a once reminder still present in the store fires —
the send effect is emitted — yet no store write occurs: afterwards the
store still holds the very same record as an active entry, with no
completed marking anywhere (the record format has no state field at
all). -/
theorem once_fire_leaves_record_active :
    job_send [(("1"), [⟨("a"), ("09:00"), ("x"), ("once"), none⟩])]
        ⟨("1"), ("x"), ("a"), ("once")⟩
      = [Effect.send ("1") ("⏰ Нагадування: x")] ∧
    storeAfterEffects [(("1"), [⟨("a"), ("09:00"), ("x"), ("once"), none⟩])]
        (job_send [(("1"), [⟨("a"), ("09:00"), ("x"), ("once"), none⟩])]
          ⟨("1"), ("x"), ("a"), ("once")⟩)
      = [(("1"), [⟨("a"), ("09:00"), ("x"), ("once"), none⟩])] := by
  decide

/-- C8 amended: the fire callback never writes the persisted store in any
case: the store after its effects equals the store before, so a fired
once reminder stays in the store unchanged as an active record and is
neither marked completed nor excluded. -/
theorem fire_never_writes_store (store : Store) (jd : JobData) :
    storeAfterEffects store (job_send store jd) = store := by
  cases hany : (store.get jd.chat_id).any fun r => r.id == jd.id <;>
    simp [job_send, hany, storeAfterEffects]

/-! ### C9: id uniqueness over time -/

/-- C9 counterexample: creating a reminder, cancelling it, and creating
an identical one again yields the very same id — the freshness check only
inspects the current JOBS keys and currently stored ids, so an id freed
by a deletion is reused by a later creation. -/
theorem id_reused_after_delete :
    (createReminder (fun _ => 0) ("1") ("09:00") ("x") ("once") ⟨[], []⟩)
      = some (("1_09:00_0_once"),
          ⟨[(("1"), [⟨("1_09:00_0_once"), ("09:00"), ("x"), ("once"), none⟩])],
           [("1_09:00_0_once")]⟩) ∧
    deleteBranch 0 ("1")
        ⟨[(("1"), [⟨("1_09:00_0_once"), ("09:00"), ("x"), ("once"), none⟩])],
         [("1_09:00_0_once")]⟩
      = (("✅ Видалено."), ⟨[(("1"), [])], []⟩) ∧
    (createReminder (fun _ => 0) ("1") ("09:00") ("x") ("once") ⟨[(("1"), [])], []⟩).map Prod.fst
      = some ("1_09:00_0_once") := by
  decide

/-- C9 amended: the id assigned at creation is unique among the ids
currently stored for that chat and among the currently armed JOBS keys at
creation time; it is not protected against reuse once the earlier
reminder is deleted. -/
theorem created_id_fresh_for_current_state (h : String → Nat)
    (chat time_str text rep : String) (st : BotState) (jid : String) (st' : BotState)
    (hc : createReminder h chat time_str text rep st = some (jid, st')) :
    jid ∉ (st.store.get chat).map Reminder.id ∧ jid ∉ st.jobs := by
  unfold createReminder schedule_reminder at hc
  cases hpt : parseTime time_str
  · rw [hpt] at hc; simp at hc
  · rw [hpt] at hc
    simp only [Option.some.injEq, Prod.mk.injEq] at hc
    have hjid : jid = freshJobId (make_job_id h chat time_str text rep)
        (st.jobs ++ (st.store.get chat).map Reminder.id) := by
      exact hc.1.symm
    have hfresh := freshJobId_not_mem (make_job_id h chat time_str text rep)
      (st.jobs ++ (st.store.get chat).map Reminder.id)
    rw [← hjid] at hfresh
    constructor
    · intro hmem; exact hfresh (List.mem_append.mpr (Or.inr hmem))
    · intro hmem; exact hfresh (List.mem_append.mpr (Or.inl hmem))

/-- Witness for the amended C9 theorem at a concrete creation. -/
theorem created_id_fresh_witness :
    createReminder (fun _ => 0) ("2") ("08:30") ("y") ("daily") ⟨[], []⟩
        = some (("2_08:30_0_daily"),
            ⟨[(("2"), [⟨("2_08:30_0_daily"), ("08:30"), ("y"), ("daily"), none⟩])],
             [("2_08:30_0_daily")]⟩) ∧
    (("2_08:30_0_daily") ∉ (Store.get ([] : Store) ("2")).map Reminder.id ∧
     ("2_08:30_0_daily") ∉ ([] : List String)) :=
  ⟨by decide,
    created_id_fresh_for_current_state (fun _ => 0) ("2") ("08:30") ("y") ("daily")
      ⟨[], []⟩ ("2_08:30_0_daily")
      ⟨[(("2"), [⟨("2_08:30_0_daily"), ("08:30"), ("y"), ("daily"), none⟩])],
       [("2_08:30_0_daily")]⟩
      (by decide)⟩

/-! ### C10: empty task text in the awaiting-task step -/

/-- C10 counterexample: in the waiting_for_task step a whitespace-only
message, whose stripped text is empty, is accepted: the empty task is
stored in the draft, the step is cleared and the repeat prompt shown —
not a re-prompt of the same step with unchanged state. -/
theorem empty_task_accepted :
    text_handler ⟨some ("waiting_for_task"), some ("09:00"), none⟩ ("   ")
      = (⟨none, some ("09:00"), some ("")⟩, ("🔄 Як повторювати нагадування?")) := by
  decide

/-- C10 amended: in the waiting_for_task step every incoming message —
with no emptiness validation whatsoever — has its stripped text stored as
the task, the step cleared, and the repeat prompt returned. -/
theorem awaiting_task_accepts_any_text (cs : ConvState) (input : String)
    (hstep : cs.step = some ("waiting_for_task")) :
    text_handler cs input
      = ({ cs with chosen_task := some (pyStrip input), step := none },
         ("🔄 Як повторювати нагадування?")) := by
  unfold text_handler
  rw [if_neg (by rw [hstep]; simp), if_pos hstep]

/-- Witness for the amended C10 theorem at a concrete padded message. -/
theorem awaiting_task_accepts_any_text_witness :
    (⟨some ("waiting_for_task"), none, none⟩ : ConvState).step = some ("waiting_for_task") ∧
    text_handler ⟨some ("waiting_for_task"), none, none⟩ (" hi ")
      = (⟨none, none, some ("hi")⟩, ("🔄 Як повторювати нагадування?")) := by
  refine ⟨rfl, ?_⟩
  rw [awaiting_task_accepts_any_text ⟨some ("waiting_for_task"), none, none⟩ (" hi ") rfl]
  decide
